import Mathlib

/-!
# Verification of the render coordination queue
Shallow embedding of `internal/renderer/queue.go` from the
`prerender-url-shortener` repository, together with proofs of the
specification's claims about it.

The Go code guards all queue state by a single mutex; every
mutex-protected critical section of the source is modelled as one pure
state-transition function, and the concurrent system as a small-step
relation `Step` interleaving those critical sections.  Waiter channels
(`chan bool` of capacity 1) are modelled by natural-number identities: a
channel id is in `fired` exactly when its one-slot buffer holds a value.
Calls to the status store (`db.UpdateLinkRenderStatus`,
`db.UpdateLinkContent`) are recorded as events in a history trace.
-/

namespace Prerender

/-- Render status values from `internal/db` (`RenderStatusPending`, …). -/
inductive RenderStatus where
  | pending
  | rendering
  | completed
  | failed
deriving DecidableEq, Repr

/-- `RenderJob` from queue.go: a short code plus the original URL. -/
structure RenderJob where
  shortCode : String
  originalURL : String
deriving DecidableEq, Repr

/-- Observable calls issued to the status store, and waiter notifications. -/
inductive Event where
  | updateLinkRenderStatus (shortCode : String) (status : RenderStatus)
  | updateLinkContent (shortCode : String) (html : String) (status : RenderStatus)
  | notify (waitChan : Nat)
deriving DecidableEq, Repr

/-- The `RenderQueue` struct of queue.go.  The `jobs` channel is its list
of buffered jobs plus capacity and closed flag; `inProgress` is the
`map[string]bool` (a total function, absent keys read `false`);
`waiting` is the `map[string][]chan bool`, with channels named by `Nat`
ids (absent keys read `[]`). -/
structure RenderQueue where
  jobs : List RenderJob
  jobsCap : Nat
  jobsClosed : Bool
  inProgress : String → Bool
  waiting : String → List Nat
  workerCount : Nat

/-- Point update of the in-progress map (`rq.inProgress[url] = b`, with
`b = false` standing for `delete`). -/
def setIP (m : String → Bool) (url : String) (b : Bool) : String → Bool :=
  fun u => if u = url then b else m u

/-- Point update of the waiting map (`rq.waiting[url] = ws`, with
`ws = []` standing for `delete`). -/
def setW (m : String → List Nat) (url : String) (ws : List Nat) :
    String → List Nat :=
  fun u => if u = url then ws else m u

/-- `InitRenderQueue`: empty maps, a job channel of capacity 100. -/
def InitRenderQueue (workerCount : Nat) : RenderQueue :=
  { jobs := []
    jobsCap := 100
    jobsClosed := false
    inProgress := fun _ => false
    waiting := fun _ => []
    workerCount := workerCount }

/-- Outcome of one `QueueRender` call.  `panicked` is the Go runtime
panic raised by the send `rq.jobs <- job` when the channel has been
closed: in a `select`, a send on a closed channel counts as ready and
panics when chosen, so the `default` branch does not protect it. -/
inductive SubmitResult where
  | duplicate
  | enqueued
  | dropped
  | panicked
deriving DecidableEq, Repr

/-- `QueueRender` (queue.go lines 45–71), one critical section.
Checks the in-flight map, marks the URL in flight, then performs the
non-blocking `select` send: panic if the channel is closed, enqueue if
there is room, otherwise drop the job and delete the in-flight marker. -/
def QueueRender (rq : RenderQueue) (shortCode originalURL : String) :
    RenderQueue × SubmitResult :=
  if rq.inProgress originalURL then
    (rq, .duplicate)
  else
    let rq1 := { rq with inProgress := setIP rq.inProgress originalURL true }
    if rq1.jobsClosed then
      (rq1, .panicked)
    else if rq1.jobs.length < rq1.jobsCap then
      ({ rq1 with jobs := rq1.jobs ++ [⟨shortCode, originalURL⟩] }, .enqueued)
    else
      ({ rq1 with inProgress := setIP rq1.inProgress originalURL false }, .dropped)

/-- `Shutdown` (queue.go lines 220–223): `close(rq.jobs)`. -/
def Shutdown (rq : RenderQueue) : RenderQueue :=
  { rq with jobsClosed := true }

/-- Whole-system state: the queue struct plus the run-time context the
Go scheduler keeps implicitly — jobs pulled by a worker but not yet
finished, waiter channels currently holding a value (`fired`), callers
blocked inside `WaitForRender`'s `select` (`blocked`), a supply of fresh
channel ids, and the trace of status-store calls. -/
structure Sys where
  rq : RenderQueue
  executing : List RenderJob
  fired : List Nat
  blocked : List (Nat × String)
  nextId : Nat
  history : List Event

/-- The system right after `InitRenderQueue`. -/
def initSys (workerCount : Nat) : Sys :=
  { rq := InitRenderQueue workerCount
    executing := []
    fired := []
    blocked := []
    nextId := 0
    history := [] }

/-- Result of the first critical section of `WaitForRender`. -/
inductive WaitStart where
  | noWait
  | registered (waitChan : Nat)

/-- First critical section of `WaitForRender` (queue.go lines 77–90):
if the URL is not in flight, return immediately; otherwise create a
fresh one-slot channel, append it to the URL's waiting list, and block. -/
def WaitForRenderBegin (s : Sys) (url : String) : Sys × WaitStart :=
  if s.rq.inProgress url then
    let w := s.nextId
    ({ s with
        rq := { s.rq with waiting := setW s.rq.waiting url (s.rq.waiting url ++ [w]) }
        blocked := (w, url) :: s.blocked
        nextId := w + 1 }, .registered w)
  else
    (s, .noWait)

/-- Timeout branch of `WaitForRender`'s `select` (queue.go lines 99–112):
remove the caller's own channel (first occurrence) from the URL's
waiting list and return `false`. -/
def WaitForRenderTimeout (s : Sys) (url : String) (w : Nat) : Sys × Bool :=
  ({ s with
      rq := { s.rq with waiting := setW s.rq.waiting url ((s.rq.waiting url).erase w) }
      blocked := s.blocked.erase (w, url) }, false)

/-- Signal branch of `WaitForRender`'s `select` (queue.go lines 96–98):
receive the value from the caller's channel and return `true`. -/
def WaitForRenderRecv (s : Sys) (url : String) (w : Nat) : Sys × Bool :=
  ({ s with
      fired := s.fired.erase w
      blocked := s.blocked.erase (w, url) }, true)

/-- Which arm of `WaitForRender`'s `select` fires for a registered
waiter: the completion signal, or `time.After(timeout)`. -/
inductive WaitEnd where
  | signal
  | expire

/-- `WaitForRender` (queue.go lines 74–114) end to end: the registration
critical section followed by the chosen `select` arm.  Returns `true`
exactly when the completion signal was received. -/
def WaitForRender (s : Sys) (url : String) (ending : WaitEnd) : Sys × Bool :=
  match WaitForRenderBegin s url with
  | (s1, .noWait) => (s1, false)
  | (s1, .registered w) =>
    match ending with
    | .signal => WaitForRenderRecv s1 url w
    | .expire => WaitForRenderTimeout s1 url w

/-- A worker pulls the next job from the channel (queue.go line 120) and
issues the "rendering" status update (line 126).  `none` when the buffer
is empty. -/
def workerTake (s : Sys) : Option (Sys × RenderJob) :=
  match s.rq.jobs with
  | [] => none
  | job :: rest =>
      some ({ s with
          rq := { s.rq with jobs := rest }
          executing := job :: s.executing
          history := s.history ++ [.updateLinkRenderStatus job.shortCode .rendering] },
        job)

/-- The status-store call the worker issues for a finished render
(queue.go lines 144 and 153): content with `completed` on success,
empty content with `failed` on error. -/
def contentEvent (job : RenderJob) (renderResult : Option String) : Event :=
  match renderResult with
  | some html => .updateLinkContent job.shortCode html .completed
  | none => .updateLinkContent job.shortCode "" .failed

/-- The notify loop (queue.go lines 164–171): non-blocking send of
`true` on each registered channel in order; a channel whose one-slot
buffer is already full is skipped (`default` branch).  Returns the new
fired set and the notification events in order. -/
def notifyAll (fired : List Nat) (ws : List Nat) : List Nat × List Event :=
  match ws with
  | [] => (fired, [])
  | w :: rest =>
      if w ∈ fired then
        notifyAll fired rest
      else
        let r := notifyAll (w :: fired) rest
        (r.1, Event.notify w :: r.2)

/-- The worker's completion critical section (queue.go lines 138–179),
one mutex hold: status-store update for the outcome, then the notify
loop, then deletion of the URL's waiting entry, then deletion of the
in-flight marker. -/
def workerFinish (s : Sys) (job : RenderJob) (renderResult : Option String) : Sys :=
  let r := notifyAll s.fired (s.rq.waiting job.originalURL)
  { s with
      rq := { s.rq with
          waiting := setW s.rq.waiting job.originalURL []
          inProgress := setIP s.rq.inProgress job.originalURL false }
      executing := s.executing.erase job
      fired := r.1
      history := s.history ++ contentEvent job renderResult :: r.2 }

/-- Small-step interleaving semantics: each constructor is one critical
section (or one `select` arm) of the Go code. -/
inductive Step : Sys → Sys → Prop where
  | submit (s : Sys) (shortCode originalURL : String) :
      Step s { s with rq := (QueueRender s.rq shortCode originalURL).1 }
  | waitBegin (s : Sys) (url : String) :
      Step s (WaitForRenderBegin s url).1
  | waitTimeout (s : Sys) (url : String) (w : Nat) (h : (w, url) ∈ s.blocked) :
      Step s (WaitForRenderTimeout s url w).1
  | waitRecv (s : Sys) (url : String) (w : Nat)
      (hb : (w, url) ∈ s.blocked) (hf : w ∈ s.fired) :
      Step s (WaitForRenderRecv s url w).1
  | workerTakeStep (s s' : Sys) (job : RenderJob) (h : workerTake s = some (s', job)) :
      Step s s'
  | workerFinishStep (s : Sys) (job : RenderJob) (renderResult : Option String)
      (h : job ∈ s.executing) :
      Step s (workerFinish s job renderResult)
  | shutdown (s : Sys) :
      Step s { s with rq := Shutdown s.rq }

/-- States reachable from a freshly initialized queue. -/
inductive Reachable : Sys → Prop where
  | init (workerCount : Nat) : Reachable (initSys workerCount)
  | step {s s' : Sys} : Reachable s → Step s s' → Reachable s'

/-! ## Concrete execution used to exercise the theorems
A one-worker queue; `"a"` is submitted for URL `"u"`, a worker takes the
job, one caller registers to wait, and the worker completes with some
HTML. -/

/-- Fresh one-worker system. -/
def w0 : Sys := initSys 1

/-- After `QueueRender "a" "u"` on the fresh system. -/
def w1 : Sys := { w0 with rq := (QueueRender w0.rq "a" "u").1 }

/-- The job admitted by that submission. -/
def wJob : RenderJob := ⟨"a", "u"⟩

/-- After the worker pulls the job from the buffer. -/
def w2 : Sys :=
  { w1 with
      rq := { w1.rq with jobs := [] }
      executing := wJob :: w1.executing
      history := w1.history ++ [.updateLinkRenderStatus wJob.shortCode .rendering] }

/-- After one caller registers to wait for `"u"` (channel id 0). -/
def w3 : Sys := (WaitForRenderBegin w2 "u").1

/-- After the worker finishes the job successfully. -/
def w4 : Sys := workerFinish w3 wJob (some "<html>")

/-- A capacity-1 queue whose buffer is full, for the rollback claim. -/
def rqFull : RenderQueue :=
  { jobs := [⟨"c1", "u1"⟩]
    jobsCap := 1
    jobsClosed := false
    inProgress := fun u => u == "u1"
    waiting := fun _ => []
    workerCount := 1 }

/-! ## Basic lemmas about the map updates and the notify loop -/

lemma setIP_eq (m : String → Bool) (url : String) (b : Bool) : setIP m url b url = b := by
  simp [setIP]

lemma setIP_ne {u url : String} (m : String → Bool) (b : Bool) (h : u ≠ url) :
    setIP m url b u = m u := by
  simp [setIP, h]

lemma setIP_true_mono {m : String → Bool} {u : String} (url : String) (h : m u = true) :
    setIP m url true u = true := by
  by_cases hu : u = url <;> simp [setIP, hu, h]

lemma mem_setW {m : String → List Nat} {url u : String} {ws : List Nat} {w : Nat} :
    w ∈ setW m url ws u ↔ (u = url ∧ w ∈ ws) ∨ (u ≠ url ∧ w ∈ m u) := by
  by_cases h : u = url <;> simp [setW, h]

lemma notifyAll_fst_mem (fired ws : List Nat) (w : Nat) (h : w ∈ fired ∨ w ∈ ws) :
    w ∈ (notifyAll fired ws).1 := by
  induction ws generalizing fired with
  | nil =>
    rcases h with h | h
    · simpa [notifyAll] using h
    · simp at h
  | cons a rest ih =>
    by_cases ha : a ∈ fired
    · have he : (notifyAll fired (a :: rest)).1 = (notifyAll fired rest).1 := by
        simp [notifyAll, ha]
      rw [he]
      apply ih
      rcases h with h | h
      · exact Or.inl h
      · rcases List.mem_cons.mp h with rfl | h
        · exact Or.inl ha
        · exact Or.inr h
    · have he : (notifyAll fired (a :: rest)).1 = (notifyAll (a :: fired) rest).1 := by
        simp [notifyAll, ha]
      rw [he]
      apply ih
      rcases h with h | h
      · exact Or.inl (List.mem_cons_of_mem a h)
      · rcases List.mem_cons.mp h with rfl | h
        · exact Or.inl (List.mem_cons_self _ _)
        · exact Or.inr h

lemma mem_of_notifyAll_fst {fired ws : List Nat} {w : Nat}
    (h : w ∈ (notifyAll fired ws).1) : w ∈ fired ∨ w ∈ ws := by
  induction ws generalizing fired with
  | nil => exact Or.inl (by simpa [notifyAll] using h)
  | cons a rest ih =>
    by_cases ha : a ∈ fired
    · have h2 : w ∈ (notifyAll fired rest).1 := by simpa [notifyAll, ha] using h
      rcases ih h2 with h3 | h3
      · exact Or.inl h3
      · exact Or.inr (List.mem_cons_of_mem a h3)
    · have h2 : w ∈ (notifyAll (a :: fired) rest).1 := by simpa [notifyAll, ha] using h
      rcases ih h2 with h3 | h3
      · rcases List.mem_cons.mp h3 with rfl | h4
        · exact Or.inr (List.mem_cons_self _ _)
        · exact Or.inl h4
      · exact Or.inr (List.mem_cons_of_mem a h3)

/-! ## The reachability invariant -/

/-- Invariant maintained by every critical section of the queue.
`jobs_inProgress` and `jobs_nodup` say that every admitted job's URL is
marked in flight and that at most one admitted job exists per URL;
`waiting_blocked` says every registered signal belongs to a caller
blocked in `WaitForRender`; `fired_db` says a fired signal's status
store update has already been issued. -/
structure Inv (s : Sys) : Prop where
  jobs_inProgress : ∀ j ∈ s.rq.jobs ++ s.executing, s.rq.inProgress j.originalURL = true
  jobs_nodup : ((s.rq.jobs ++ s.executing).map RenderJob.originalURL).Nodup
  waiting_blocked : ∀ u w, w ∈ s.rq.waiting u → (w, u) ∈ s.blocked
  waiting_nodup : ∀ u, (s.rq.waiting u).Nodup
  waiting_inj : ∀ u₁ u₂ w, w ∈ s.rq.waiting u₁ → w ∈ s.rq.waiting u₂ → u₁ = u₂
  waiting_lt : ∀ u w, w ∈ s.rq.waiting u → w < s.nextId
  fired_lt : ∀ w ∈ s.fired, w < s.nextId
  blocked_lt : ∀ p ∈ s.blocked, p.1 < s.nextId
  blocked_fst_nodup : (s.blocked.map Prod.fst).Nodup
  fired_not_waiting : ∀ w ∈ s.fired, ∀ u, w ∉ s.rq.waiting u
  fired_db : ∀ w u, w ∈ s.fired → (w, u) ∈ s.blocked →
    ∃ job res, job.originalURL = u ∧ contentEvent job res ∈ s.history

lemma inv_init (n : Nat) : Inv (initSys n) := by
  refine ⟨?_, ?_, ?_, ?_, ?_, ?_, ?_, ?_, ?_, ?_, ?_⟩ <;>
    simp [initSys, InitRenderQueue]

lemma inv_submit (s : Sys) (sc url : String) (h : Inv s) :
    Inv { s with rq := (QueueRender s.rq sc url).1 } := by
  by_cases hip : s.rq.inProgress url = true
  · have he : (QueueRender s.rq sc url).1 = s.rq := by simp [QueueRender, hip]
    rw [he]
    exact h
  · have hipf : s.rq.inProgress url = false := by
      revert hip; cases s.rq.inProgress url <;> simp
    by_cases hcl : s.rq.jobsClosed = true
    · have he : (QueueRender s.rq sc url).1 =
          { s.rq with inProgress := setIP s.rq.inProgress url true } := by
        simp [QueueRender, hipf, hcl]
      rw [he]
      exact ⟨fun j hj => setIP_true_mono url (h.jobs_inProgress j hj),
        h.jobs_nodup, h.waiting_blocked, h.waiting_nodup, h.waiting_inj,
        h.waiting_lt, h.fired_lt, h.blocked_lt, h.blocked_fst_nodup,
        h.fired_not_waiting, h.fired_db⟩
    · have hclf : s.rq.jobsClosed = false := by
        revert hcl; cases s.rq.jobsClosed <;> simp
      by_cases hlen : s.rq.jobs.length < s.rq.jobsCap
      · have he : (QueueRender s.rq sc url).1 =
            { s.rq with inProgress := setIP s.rq.inProgress url true,
                        jobs := s.rq.jobs ++ [⟨sc, url⟩] } := by
          simp [QueueRender, hipf, hclf, hlen]
        rw [he]
        refine ⟨?_, ?_, h.waiting_blocked, h.waiting_nodup, h.waiting_inj,
          h.waiting_lt, h.fired_lt, h.blocked_lt, h.blocked_fst_nodup,
          h.fired_not_waiting, h.fired_db⟩
        · intro j hj
          rcases List.mem_append.mp hj with hj1 | hj1
          · rcases List.mem_append.mp hj1 with hj2 | hj2
            · exact setIP_true_mono url
                (h.jobs_inProgress j (List.mem_append_left _ hj2))
            · have hje : j = ⟨sc, url⟩ := by simpa using hj2
              subst hje
              exact setIP_eq _ _ _
          · exact setIP_true_mono url
              (h.jobs_inProgress j (List.mem_append_right _ hj1))
        · have hmap : ((s.rq.jobs ++ [(⟨sc, url⟩ : RenderJob)]) ++ s.executing).map
              RenderJob.originalURL =
              s.rq.jobs.map RenderJob.originalURL ++
                url :: s.executing.map RenderJob.originalURL := by
            simp
          rw [hmap, List.nodup_middle]
          refine List.nodup_cons.mpr ⟨?_, ?_⟩
          · intro hmem
            rw [← List.map_append] at hmem
            obtain ⟨j, hj, hju⟩ := List.mem_map.mp hmem
            have := h.jobs_inProgress j hj
            rw [hju] at this
            exact hip this
          · have := h.jobs_nodup
            rwa [List.map_append] at this
      · have he : (QueueRender s.rq sc url).1 = s.rq := by
          have hfun : setIP (setIP s.rq.inProgress url true) url false =
              s.rq.inProgress := by
            funext u
            by_cases hu : u = url
            · subst hu
              simp [setIP, hipf]
            · simp [setIP, hu]
          simp only [QueueRender]
          rw [if_neg hip, if_neg hcl, if_neg hlen]
          show ({ s.rq with
              inProgress := setIP (setIP s.rq.inProgress url true) url false } :
            RenderQueue) = s.rq
          rw [hfun]
        rw [he]
        exact h

lemma inv_waitBegin (s : Sys) (url : String) (h : Inv s) :
    Inv (WaitForRenderBegin s url).1 := by
  by_cases hip : s.rq.inProgress url = true
  · have he : (WaitForRenderBegin s url).1 =
        { s with
            rq := { s.rq with
              waiting := setW s.rq.waiting url (s.rq.waiting url ++ [s.nextId]) }
            blocked := (s.nextId, url) :: s.blocked
            nextId := s.nextId + 1 } := by
      simp [WaitForRenderBegin, hip]
    rw [he]
    refine ⟨h.jobs_inProgress, h.jobs_nodup, ?_, ?_, ?_, ?_, ?_, ?_, ?_, ?_, ?_⟩
    · intro u w hw
      rcases mem_setW.mp hw with ⟨rfl, hm⟩ | ⟨_, hm⟩
      · rcases List.mem_append.mp hm with h1 | h1
        · exact List.mem_cons_of_mem _ (h.waiting_blocked _ w h1)
        · have hwn : w = s.nextId := by simpa using h1
          subst hwn
          exact List.mem_cons_self _ _
      · exact List.mem_cons_of_mem _ (h.waiting_blocked u w hm)
    · intro u
      by_cases hu : u = url
      · subst hu
        simp only [setW, if_pos rfl]
        refine List.nodup_append.mpr ⟨h.waiting_nodup u, List.nodup_singleton _, ?_⟩
        intro a ha hb
        have han : a = s.nextId := by simpa using hb
        subst han
        exact absurd (h.waiting_lt u _ ha) (lt_irrefl _)
      · simpa [setW, hu] using h.waiting_nodup u
    · intro u₁ u₂ w h1 h2
      rcases mem_setW.mp h1 with ⟨rfl, hm1⟩ | ⟨hne1, hm1⟩ <;>
        rcases mem_setW.mp h2 with ⟨he2, hm2⟩ | ⟨hne2, hm2⟩
      · exact he2.symm
      · rcases List.mem_append.mp hm1 with h3 | h3
        · exact h.waiting_inj u₁ u₂ w h3 hm2
        · have hwn : w = s.nextId := by simpa using h3
          subst hwn
          exact absurd (h.waiting_lt u₂ _ hm2) (lt_irrefl _)
      · subst he2
        rcases List.mem_append.mp hm2 with h3 | h3
        · exact h.waiting_inj u₁ u₂ w hm1 h3
        · have hwn : w = s.nextId := by simpa using h3
          subst hwn
          exact absurd (h.waiting_lt u₁ _ hm1) (lt_irrefl _)
      · exact h.waiting_inj u₁ u₂ w hm1 hm2
    · intro u w hw
      rcases mem_setW.mp hw with ⟨rfl, hm⟩ | ⟨_, hm⟩
      · rcases List.mem_append.mp hm with h1 | h1
        · exact Nat.lt_succ_of_lt (h.waiting_lt u w h1)
        · have hwn : w = s.nextId := by simpa using h1
          subst hwn
          exact Nat.lt_succ_self _
      · exact Nat.lt_succ_of_lt (h.waiting_lt u w hm)
    · intro w hw
      exact Nat.lt_succ_of_lt (h.fired_lt w hw)
    · intro p hp
      rcases List.mem_cons.mp hp with rfl | hp'
      · exact Nat.lt_succ_self _
      · exact Nat.lt_succ_of_lt (h.blocked_lt p hp')
    · rw [List.map_cons]
      refine List.nodup_cons.mpr ⟨?_, h.blocked_fst_nodup⟩
      intro hmem
      obtain ⟨p, hp, hfst⟩ := List.mem_map.mp hmem
      have hlt := h.blocked_lt p hp
      rw [hfst] at hlt
      exact absurd hlt (lt_irrefl _)
    · intro w hw u hmem
      rcases mem_setW.mp hmem with ⟨rfl, hm⟩ | ⟨_, hm⟩
      · rcases List.mem_append.mp hm with h1 | h1
        · exact h.fired_not_waiting w hw u h1
        · have hwn : w = s.nextId := by simpa using h1
          subst hwn
          exact absurd (h.fired_lt _ hw) (lt_irrefl _)
      · exact h.fired_not_waiting w hw u hm
    · intro w u hw hb
      rcases List.mem_cons.mp hb with heq | hb'
      · have hwn : w = s.nextId := by
          have := congrArg Prod.fst heq
          simpa using this
        subst hwn
        exact absurd (h.fired_lt _ hw) (lt_irrefl _)
      · exact h.fired_db w u hw hb'
  · have he : (WaitForRenderBegin s url).1 = s := by simp [WaitForRenderBegin, hip]
    rw [he]
    exact h
lemma inv_waitTimeout (s : Sys) (url : String) (w : Nat) (h : Inv s) :
    Inv (WaitForRenderTimeout s url w).1 := by
  refine ⟨h.jobs_inProgress, h.jobs_nodup, ?_, ?_, ?_, ?_, h.fired_lt, ?_, ?_, ?_, ?_⟩
  · intro u w' hw'
    rcases mem_setW.mp hw' with ⟨hequ, hm⟩ | ⟨hne, hm⟩
    · have h2 := (List.Nodup.mem_erase_iff (h.waiting_nodup url)).mp hm
      have hb := h.waiting_blocked url w' h2.2
      rw [hequ]
      have hnep : (w', url) ≠ (w, url) := by
        intro heq
        exact h2.1 (congrArg Prod.fst heq)
      exact (List.mem_erase_of_ne hnep).mpr hb
    · have hb := h.waiting_blocked u w' hm
      have hnep : (w', u) ≠ (w, url) := by
        intro heq
        exact hne (congrArg Prod.snd heq)
      exact (List.mem_erase_of_ne hnep).mpr hb
  · intro u
    show ((setW s.rq.waiting url ((s.rq.waiting url).erase w)) u).Nodup
    by_cases hu : u = url
    · rw [hu]
      simp only [setW, if_pos rfl]
      exact (h.waiting_nodup url).erase w
    · simp only [setW, if_neg hu]
      exact h.waiting_nodup u
  · intro u₁ u₂ w' h1 h2
    have hm1 : w' ∈ s.rq.waiting u₁ := by
      rcases mem_setW.mp h1 with ⟨rfl, hm⟩ | ⟨_, hm⟩
      · exact List.mem_of_mem_erase hm
      · exact hm
    have hm2 : w' ∈ s.rq.waiting u₂ := by
      rcases mem_setW.mp h2 with ⟨rfl, hm⟩ | ⟨_, hm⟩
      · exact List.mem_of_mem_erase hm
      · exact hm
    exact h.waiting_inj u₁ u₂ w' hm1 hm2
  · intro u w' hw'
    rcases mem_setW.mp hw' with ⟨rfl, hm⟩ | ⟨_, hm⟩
    · exact h.waiting_lt _ w' (List.mem_of_mem_erase hm)
    · exact h.waiting_lt u w' hm
  · intro p hp
    exact h.blocked_lt p (List.mem_of_mem_erase hp)
  · exact h.blocked_fst_nodup.sublist ((List.erase_sublist _ _).map _)
  · intro w' hw' u hmem
    rcases mem_setW.mp hmem with ⟨rfl, hm⟩ | ⟨_, hm⟩
    · exact h.fired_not_waiting w' hw' _ (List.mem_of_mem_erase hm)
    · exact h.fired_not_waiting w' hw' u hm
  · intro w' u hw' hb
    exact h.fired_db w' u hw' (List.mem_of_mem_erase hb)

lemma inv_waitRecv (s : Sys) (url : String) (w : Nat) (hf : w ∈ s.fired) (h : Inv s) :
    Inv (WaitForRenderRecv s url w).1 := by
  refine ⟨h.jobs_inProgress, h.jobs_nodup, ?_, h.waiting_nodup, h.waiting_inj,
    h.waiting_lt, ?_, ?_, ?_, ?_, ?_⟩
  · intro u w' hw'
    have hb := h.waiting_blocked u w' hw'
    have hnep : (w', u) ≠ (w, url) := by
      intro heq
      have hww : w' = w := congrArg Prod.fst heq
      subst hww
      exact h.fired_not_waiting w' hf u hw'
    exact (List.mem_erase_of_ne hnep).mpr hb
  · intro w' hw'
    exact h.fired_lt w' (List.mem_of_mem_erase hw')
  · intro p hp
    exact h.blocked_lt p (List.mem_of_mem_erase hp)
  · exact h.blocked_fst_nodup.sublist ((List.erase_sublist _ _).map _)
  · intro w' hw' u
    exact h.fired_not_waiting w' (List.mem_of_mem_erase hw') u
  · intro w' u hw' hb
    exact h.fired_db w' u (List.mem_of_mem_erase hw') (List.mem_of_mem_erase hb)

lemma inv_workerTake (s s' : Sys) (job : RenderJob)
    (h : workerTake s = some (s', job)) (hinv : Inv s) : Inv s' := by
  unfold workerTake at h
  rcases hjobs : s.rq.jobs with _ | ⟨j, rest⟩
  · rw [hjobs] at h
    simp at h
  · rw [hjobs] at h
    simp only [Option.some.injEq, Prod.mk.injEq] at h
    obtain ⟨hs', hjob⟩ := h
    subst hjob
    subst hs'
    have hold := hinv.jobs_inProgress
    rw [hjobs] at hold
    have holdnd := hinv.jobs_nodup
    rw [hjobs] at holdnd
    refine ⟨?_, ?_, hinv.waiting_blocked, hinv.waiting_nodup, hinv.waiting_inj,
      hinv.waiting_lt, hinv.fired_lt, hinv.blocked_lt, hinv.blocked_fst_nodup,
      hinv.fired_not_waiting, ?_⟩
    · intro jj hjj
      apply hold
      rcases List.mem_append.mp hjj with h1 | h1
      · exact List.mem_append_left _ (List.mem_cons_of_mem _ h1)
      · rcases List.mem_cons.mp h1 with h2 | h2
        · rw [h2]
          exact List.mem_append_left _ (List.mem_cons_self _ _)
        · exact List.mem_append_right _ h2
    · have hgoal : ((rest ++ j :: s.executing).map RenderJob.originalURL) =
          rest.map RenderJob.originalURL ++
            j.originalURL :: s.executing.map RenderJob.originalURL := by
        simp
      rw [hgoal, List.nodup_middle]
      simpa using holdnd
    · intro w u hw hb
      obtain ⟨jb, res, hurl, hmem⟩ := hinv.fired_db w u hw hb
      exact ⟨jb, res, hurl, List.mem_append_left _ hmem⟩

lemma inv_workerFinish (s : Sys) (job : RenderJob) (res : Option String)
    (hjob : job ∈ s.executing) (h : Inv s) : Inv (workerFinish s job res) := by
  refine ⟨?_, ?_, ?_, ?_, ?_, ?_, ?_, h.blocked_lt, h.blocked_fst_nodup, ?_, ?_⟩
  · intro j hj
    have hj' : j ∈ s.rq.jobs ++ s.executing := by
      rcases List.mem_append.mp hj with h1 | h1
      · exact List.mem_append_left _ h1
      · exact List.mem_append_right _ (List.mem_of_mem_erase h1)
    have hne : j.originalURL ≠ job.originalURL := by
      intro heq
      have hnd := h.jobs_nodup
      rw [List.map_append] at hnd
      rcases List.mem_append.mp hj with h1 | h1
      · have d := List.disjoint_of_nodup_append hnd
        have m1 : j.originalURL ∈ s.rq.jobs.map RenderJob.originalURL :=
          List.mem_map_of_mem _ h1
        have m2 : j.originalURL ∈ s.executing.map RenderJob.originalURL := by
          rw [heq]
          exact List.mem_map_of_mem _ hjob
        exact d m1 m2
      · have hexnd : (s.executing.map RenderJob.originalURL).Nodup :=
          hnd.of_append_right
        have hexnodup : s.executing.Nodup := hexnd.of_map _
        have hj2 := (List.Nodup.mem_erase_iff hexnodup).mp h1
        exact hj2.1 (List.inj_on_of_nodup_map hexnd hj2.2 hjob heq)
    have hold := h.jobs_inProgress j hj'
    calc setIP s.rq.inProgress job.originalURL false j.originalURL
        = s.rq.inProgress j.originalURL := setIP_ne _ _ hne
      _ = true := hold
  · exact h.jobs_nodup.sublist
      (((List.erase_sublist job s.executing).append_left s.rq.jobs).map _)
  · intro u w hw
    rcases mem_setW.mp hw with ⟨_, hf⟩ | ⟨_, hm⟩
    · simp at hf
    · exact h.waiting_blocked u w hm
  · intro u
    show ((setW s.rq.waiting job.originalURL []) u).Nodup
    by_cases hu : u = job.originalURL
    · simp [setW, hu]
    · simp only [setW, if_neg hu]
      exact h.waiting_nodup u
  · intro u₁ u₂ w h1 h2
    rcases mem_setW.mp h1 with ⟨_, hf⟩ | ⟨_, hm1⟩
    · simp at hf
    rcases mem_setW.mp h2 with ⟨_, hf⟩ | ⟨_, hm2⟩
    · simp at hf
    exact h.waiting_inj u₁ u₂ w hm1 hm2
  · intro u w hw
    rcases mem_setW.mp hw with ⟨_, hf⟩ | ⟨_, hm⟩
    · simp at hf
    · exact h.waiting_lt u w hm
  · intro w hw
    rcases mem_of_notifyAll_fst hw with h1 | h1
    · exact h.fired_lt w h1
    · exact h.waiting_lt _ w h1
  · intro w hw u hmem
    rcases mem_setW.mp hmem with ⟨_, hf⟩ | ⟨hne, hm⟩
    · simp at hf
    · rcases mem_of_notifyAll_fst hw with h1 | h1
      · exact h.fired_not_waiting w h1 u hm
      · exact hne (h.waiting_inj u job.originalURL w hm h1)
  · intro w u hw hb
    rcases mem_of_notifyAll_fst hw with h1 | h1
    · obtain ⟨jb, res', hurl, hmem⟩ := h.fired_db w u h1 hb
      exact ⟨jb, res', hurl, List.mem_append_left _ hmem⟩
    · have hbU : (w, job.originalURL) ∈ s.blocked := h.waiting_blocked _ w h1
      have hpair : (w, u) = (w, job.originalURL) :=
        List.inj_on_of_nodup_map h.blocked_fst_nodup hb hbU rfl
      have hu : u = job.originalURL := congrArg Prod.snd hpair
      exact ⟨job, res, hu.symm, List.mem_append_right _ (List.mem_cons_self _ _)⟩

lemma inv_shutdown (s : Sys) (h : Inv s) : Inv { s with rq := Shutdown s.rq } :=
  ⟨h.jobs_inProgress, h.jobs_nodup, h.waiting_blocked, h.waiting_nodup,
    h.waiting_inj, h.waiting_lt, h.fired_lt, h.blocked_lt, h.blocked_fst_nodup,
    h.fired_not_waiting, h.fired_db⟩

lemma inv_step {s s' : Sys} (hs : Step s s') (h : Inv s) : Inv s' :=
  match s, s', hs, h with
  | _, _, .submit s sc url, h => inv_submit s sc url h
  | _, _, .waitBegin s url, h => inv_waitBegin s url h
  | _, _, .waitTimeout s url w _, h => inv_waitTimeout s url w h
  | _, _, .waitRecv s url w _ hf, h => inv_waitRecv s url w hf h
  | _, _, .workerTakeStep s s2 job hTake, h => inv_workerTake s s2 job hTake h
  | _, _, .workerFinishStep s job res hjob, h => inv_workerFinish s job res hjob h
  | _, _, .shutdown s, h => inv_shutdown s h

lemma reachable_inv {s : Sys} (h : Reachable s) : Inv s := by
  induction h with
  | init n => exact inv_init n
  | step _ hs ih => exact inv_step hs ih
/-! ## Reachability of the concrete execution -/

lemma reachable_w1 : Reachable w1 :=
  Reachable.step (Reachable.init 1) (Step.submit w0 "a" "u")

lemma workerTake_w1 : workerTake w1 = some (w2, wJob) := rfl

lemma reachable_w2 : Reachable w2 :=
  Reachable.step reachable_w1 (Step.workerTakeStep w1 w2 wJob workerTake_w1)

lemma reachable_w3 : Reachable w3 :=
  Reachable.step reachable_w2 (Step.waitBegin w2 "u")

lemma wJob_mem_w3 : wJob ∈ w3.executing := by decide

lemma reachable_w4 : Reachable w4 :=
  Reachable.step reachable_w3
    (Step.workerFinishStep w3 wJob (some "<html>") wJob_mem_w3)
/-! ## The claims -/

/-- C1: duplicate suppression.  In every reachable state, a `QueueRender`
call for a URL already marked in flight returns immediately with the
state unchanged (no job enqueued, in-flight set, waiter registry and
buffer untouched); moreover at most one admitted job (buffered or
executing) exists per URL, and every admitted job's URL is in flight. -/
theorem c1_duplicate_suppression (s : Sys) (hr : Reachable s) :
    (∀ sc url, s.rq.inProgress url = true →
      QueueRender s.rq sc url = (s.rq, SubmitResult.duplicate)) ∧
    ((s.rq.jobs ++ s.executing).map RenderJob.originalURL).Nodup ∧
    (∀ j ∈ s.rq.jobs ++ s.executing, s.rq.inProgress j.originalURL = true) := by
  have h := reachable_inv hr
  refine ⟨?_, h.jobs_nodup, h.jobs_inProgress⟩
  intro sc url hip
  simp [QueueRender, hip]

theorem c1_duplicate_suppression_witness :
    w1.rq.inProgress "u" = true ∧
    QueueRender w1.rq "b" "u" = (w1.rq, SubmitResult.duplicate) := by
  have hip : w1.rq.inProgress "u" = true := by decide
  exact ⟨hip, (c1_duplicate_suppression w1 reachable_w1).1 "b" "u" hip⟩

/-- C2: rollback on full buffer.  A `QueueRender` call for a URL not in
flight, on an open queue whose buffer is full, returns with the state
exactly as it was (the in-flight marker set during the call is deleted
again), and no job for that URL is buffered afterwards, so no completion
signal can ever fire for the submission. -/
theorem c2_full_buffer_rollback (rq : RenderQueue) (sc url : String)
    (hip : rq.inProgress url = false)
    (hclosed : rq.jobsClosed = false)
    (hfull : ¬rq.jobs.length < rq.jobsCap)
    (hadm : ∀ j ∈ rq.jobs, rq.inProgress j.originalURL = true) :
    QueueRender rq sc url = (rq, SubmitResult.dropped) ∧
    ∀ j ∈ rq.jobs, j.originalURL ≠ url := by
  constructor
  · have hfun : setIP (setIP rq.inProgress url true) url false = rq.inProgress := by
      funext u
      by_cases hu : u = url
      · subst hu
        simp [setIP, hip]
      · simp [setIP, hu]
    simp only [QueueRender]
    rw [if_neg (by simp [hip]), if_neg (by simp [hclosed]), if_neg hfull]
    show ({ rq with
        inProgress := setIP (setIP rq.inProgress url true) url false },
      SubmitResult.dropped) = (rq, SubmitResult.dropped)
    rw [hfun]
  · intro j hj heq
    have := hadm j hj
    rw [heq, hip] at this
    exact Bool.false_ne_true this

theorem c2_full_buffer_rollback_witness :
    QueueRender rqFull "c2" "u2" = (rqFull, SubmitResult.dropped) ∧
    ∀ j ∈ rqFull.jobs, j.originalURL ≠ "u2" :=
  c2_full_buffer_rollback rqFull "c2" "u2" (by decide) rfl (by decide) (by decide)

/-- C3: completion atomicity and ordering.  The worker's completion
critical section is a single step of the transition system (one mutex
hold), after which every signal that was registered for the job's URL
has fired, the URL's waiter-registry entry is cleared, and the URL is no
longer in flight; a `WaitForRender` arriving after that step observes
"not in flight" and returns immediately with no waiter registered. -/
theorem c3_completion_atomic (s : Sys) (job : RenderJob) (res : Option String)
    (hjob : job ∈ s.executing) :
    (∀ w ∈ s.rq.waiting job.originalURL, w ∈ (workerFinish s job res).fired) ∧
    (workerFinish s job res).rq.waiting job.originalURL = [] ∧
    (workerFinish s job res).rq.inProgress job.originalURL = false ∧
    WaitForRenderBegin (workerFinish s job res) job.originalURL =
      (workerFinish s job res, WaitStart.noWait) ∧
    Step s (workerFinish s job res) := by
  have hW : (workerFinish s job res).rq.waiting job.originalURL = [] := by
    show setW s.rq.waiting job.originalURL [] job.originalURL = []
    simp [setW]
  have hIP : (workerFinish s job res).rq.inProgress job.originalURL = false := by
    show setIP s.rq.inProgress job.originalURL false job.originalURL = false
    simp [setIP]
  refine ⟨?_, hW, hIP, ?_, Step.workerFinishStep s job res hjob⟩
  · intro w hw
    exact notifyAll_fst_mem _ _ w (Or.inr hw)
  · simp [WaitForRenderBegin, hIP]

theorem c3_completion_atomic_witness :
    wJob ∈ w3.executing ∧
    (workerFinish w3 wJob (some "<html>")).rq.inProgress wJob.originalURL = false :=
  ⟨wJob_mem_w3, (c3_completion_atomic w3 wJob (some "<html>") wJob_mem_w3).2.2.1⟩

/-- C4: the code reaches `rq.jobs <- job` on a closed channel when
`QueueRender` is called after `Shutdown` for a URL not in flight.  In Go
a send on a closed channel counts as ready inside `select` and panics
when chosen, so the process crashes: the claim that submit after
shutdown does not crash is violated by the code. -/
theorem c4_submit_after_shutdown_panics :
    (QueueRender (Shutdown (InitRenderQueue 3)) "abc" "http://example.com").2 =
      SubmitResult.panicked := rfl

/-- C5: multi-waiter fan-out.  In any reachable state, when the worker
finishes a job, every waiter registered for the job's URL has its signal
fired, is still a blocked caller, and its receive step is enabled and
returns `true` — no registered waiter is left to hit its timeout. -/
theorem c5_multi_waiter_fanout (s : Sys) (hr : Reachable s) (job : RenderJob)
    (res : Option String) :
    ∀ w ∈ s.rq.waiting job.originalURL,
      w ∈ (workerFinish s job res).fired ∧
      (w, job.originalURL) ∈ (workerFinish s job res).blocked ∧
      (WaitForRenderRecv (workerFinish s job res) job.originalURL w).2 = true ∧
      Step (workerFinish s job res)
        (WaitForRenderRecv (workerFinish s job res) job.originalURL w).1 := by
  intro w hw
  have hinv := reachable_inv hr
  have hf : w ∈ (workerFinish s job res).fired :=
    notifyAll_fst_mem _ _ w (Or.inr hw)
  have hb : (w, job.originalURL) ∈ (workerFinish s job res).blocked :=
    hinv.waiting_blocked _ w hw
  exact ⟨hf, hb, rfl, Step.waitRecv _ _ _ hb hf⟩

theorem c5_multi_waiter_fanout_witness :
    0 ∈ w3.rq.waiting wJob.originalURL ∧
    0 ∈ (workerFinish w3 wJob (some "<html>")).fired := by
  have h0 : 0 ∈ w3.rq.waiting wJob.originalURL := by decide
  exact ⟨h0,
    (c5_multi_waiter_fanout w3 reachable_w3 wJob (some "<html>") 0 h0).1⟩

/-- C6: render-failure semantics.  When the render executor fails, the
worker issues `UpdateLinkContent(id, "", failed)` (empty content,
terminal failed status), the job is not re-enqueued, the URL's in-flight
state ends, and the waiter notification and cleanup are exactly the same
as on success: the post-states of the failure and success branches agree
on every component except the recorded status-store call. -/
theorem c6_render_failure (s : Sys) (job : RenderJob) (html : String) :
    (workerFinish s job none).history =
      s.history ++ Event.updateLinkContent job.shortCode "" RenderStatus.failed ::
        (notifyAll s.fired (s.rq.waiting job.originalURL)).2 ∧
    (workerFinish s job none).rq.inProgress job.originalURL = false ∧
    (∀ w ∈ s.rq.waiting job.originalURL, w ∈ (workerFinish s job none).fired) ∧
    (workerFinish s job none).rq.jobs = s.rq.jobs ∧
    (workerFinish s job none).rq.waiting = (workerFinish s job (some html)).rq.waiting ∧
    (workerFinish s job none).rq.inProgress =
      (workerFinish s job (some html)).rq.inProgress ∧
    (workerFinish s job none).fired = (workerFinish s job (some html)).fired ∧
    (workerFinish s job none).blocked = (workerFinish s job (some html)).blocked ∧
    (workerFinish s job none).executing = (workerFinish s job (some html)).executing := by
  refine ⟨rfl, ?_, ?_, rfl, rfl, rfl, rfl, rfl, rfl⟩
  · show setIP s.rq.inProgress job.originalURL false job.originalURL = false
    simp [setIP]
  · intro w hw
    exact notifyAll_fst_mem _ _ w (Or.inr hw)

/-- C7: no-wait-needed.  A `WaitForRender` call for a URL that is not in
flight — never submitted and already completed are the same condition —
returns immediately with `false`, registers no waiter and leaves the
state unchanged, regardless of which `select` arm a registered waiter
would have taken. -/
theorem c7_no_wait_needed (s : Sys) (url : String)
    (h : s.rq.inProgress url = false) :
    WaitForRenderBegin s url = (s, WaitStart.noWait) ∧
    ∀ ending, WaitForRender s url ending = (s, false) := by
  have h1 : WaitForRenderBegin s url = (s, WaitStart.noWait) := by
    simp [WaitForRenderBegin, h]
  refine ⟨h1, ?_⟩
  intro ending
  simp [WaitForRender, h1]

theorem c7_no_wait_needed_witness :
    WaitForRender w0 "u" WaitEnd.expire = (w0, false) :=
  (c7_no_wait_needed w0 "u" rfl).2 WaitEnd.expire

/-- C8: waiter-registry invariant and timeout self-cleanup.  In every
reachable state each registered signal belongs to a caller blocked in
`WaitForRender`; the timeout path returns `false` and removes exactly
the caller's own signal from its URL's list — other URLs' lists and the
other waiters of the same URL are untouched. -/
theorem c8_registry_timeout_cleanup (s : Sys) (hr : Reachable s)
    (url : String) (w : Nat) :
    (∀ u w', w' ∈ s.rq.waiting u → (w', u) ∈ s.blocked) ∧
    (WaitForRenderTimeout s url w).2 = false ∧
    (WaitForRenderTimeout s url w).1.rq.waiting url = (s.rq.waiting url).erase w ∧
    (∀ u, u ≠ url → (WaitForRenderTimeout s url w).1.rq.waiting u = s.rq.waiting u) ∧
    (∀ w', w' ∈ s.rq.waiting url → w' ≠ w →
      w' ∈ (WaitForRenderTimeout s url w).1.rq.waiting url) := by
  have hinv := reachable_inv hr
  have hself : (WaitForRenderTimeout s url w).1.rq.waiting url =
      (s.rq.waiting url).erase w := by
    show setW s.rq.waiting url ((s.rq.waiting url).erase w) url = _
    simp [setW]
  refine ⟨hinv.waiting_blocked, rfl, hself, ?_, ?_⟩
  · intro u hu
    show setW s.rq.waiting url ((s.rq.waiting url).erase w) u = _
    simp [setW, hu]
  · intro w' hw' hne
    rw [hself]
    exact (List.mem_erase_of_ne hne).mpr hw'

theorem c8_registry_timeout_cleanup_witness :
    (WaitForRenderTimeout w3 "u" 0).2 = false ∧
    (WaitForRenderTimeout w3 "u" 0).1.rq.waiting "u" = (w3.rq.waiting "u").erase 0 := by
  have h := c8_registry_timeout_cleanup w3 reachable_w3 "u" 0
  exact ⟨h.2.1, h.2.2.1⟩

/-- C9: status persisted before waiters are released.  Within the
worker's single completion critical section the status-store update is
issued before any waiter notification (it heads the emitted event
trace); consequently, in every reachable state, any blocked caller whose
signal has fired — i.e. any `WaitForRender` about to return `true` — has
a status-store update for its URL's job already in the history. -/
theorem c9_status_before_release (s : Sys) (hr : Reachable s) (w : Nat)
    (url : String) (hf : w ∈ s.fired) (hb : (w, url) ∈ s.blocked) :
    (∃ job res, job.originalURL = url ∧ contentEvent job res ∈ s.history) ∧
    (∀ job res, (workerFinish s job res).history =
      s.history ++ contentEvent job res ::
        (notifyAll s.fired (s.rq.waiting job.originalURL)).2) :=
  ⟨(reachable_inv hr).fired_db w url hf hb, fun _ _ => rfl⟩

theorem c9_status_before_release_witness :
    ∃ job res, job.originalURL = "u" ∧ contentEvent job res ∈ w4.history :=
  (c9_status_before_release w4 reachable_w4 0 "u" (by decide) (by decide)).1

/-- C10: the boolean return of `WaitForRender` conflates "no wait
needed" with "timed out": it is `true` exactly when the URL was in
flight at call time and the completion signal arm fired, and `false`
both when the URL was not in flight and when the timeout arm fired, so
the caller cannot distinguish those two cases from the return value. -/
theorem c10_boolean_conflation (s : Sys) (url : String) (ending : WaitEnd) :
    (WaitForRender s url ending).2 = true ↔
      s.rq.inProgress url = true ∧ ending = WaitEnd.signal := by
  by_cases hip : s.rq.inProgress url = true
  · have h1 : WaitForRenderBegin s url =
        ({ s with
            rq := { s.rq with
              waiting := setW s.rq.waiting url (s.rq.waiting url ++ [s.nextId]) }
            blocked := (s.nextId, url) :: s.blocked
            nextId := s.nextId + 1 }, WaitStart.registered s.nextId) := by
      simp [WaitForRenderBegin, hip]
    cases ending with
    | signal => simp [WaitForRender, h1, WaitForRenderRecv, hip]
    | expire => simp [WaitForRender, h1, WaitForRenderTimeout, hip]
  · have h1 : WaitForRenderBegin s url = (s, WaitStart.noWait) := by
      simp [WaitForRenderBegin, hip]
    simp [WaitForRender, h1, hip]

end Prerender
